import Mathlib

/-!
# Verification of the hybrid waterfall/bar chart core

Shallow embedding of the visual's core logic (row parsing, waterfall
layout, separator placement, value formatting) over exact rationals,
together with proofs of the specified properties.

JS `number` values are modelled as `ℚ` (exact arithmetic); `NaN` is
modelled as `Option.none` where it can arise (string-to-number
coercion).  JS `Array.prototype.sort` with a numeric comparator is a
stable sort (ES2019), modelled by `List.insertionSort`.
-/

namespace HybridWaterfall

unseal Rat.mul Rat.inv Rat.add Rat.sub

/-! ## Data model (`BarType`, `StackedValue`, `BarData` interfaces) -/

inductive BarType
  | step
  | subtotal
  | total
  | bar
  deriving DecidableEq, Repr

structure StackedValue where
  measureName : String
  value : ℚ
  color : String
  deriving DecidableEq, Repr

structure BarData where
  category : String
  barType : BarType
  sequence : ℚ
  stackedValues : List StackedValue
  totalValue : ℚ
  startY : ℚ
  endY : ℚ
  xPosition : ℚ
  deriving DecidableEq, Repr

/-- Placeholder bar used as the default value of list lookups. -/
def noBar : BarData :=
  { category := "", barType := .step, sequence := 0, stackedValues := []
    totalValue := 0, startY := 0, endY := 0, xPosition := 0 }

/-! ## Raw data-view cells and JS coercions

A cell of the host data view is null/undefined, a string, or a number.
(`undefined` and out-of-range accesses behave like `null` through every
coercion the visual applies, so both are modelled by `Cell.null`.) -/

inductive Cell
  | null
  | str (s : String)
  | num (q : ℚ)
  deriving DecidableEq, Repr

/-- Digits to a natural number, most significant first. -/
def digitsToNat (cs : List Char) : Nat :=
  cs.foldl (fun n c => n * 10 + (c.toNat - 48)) 0

/-- `Number(s)` for a string `s` (`none` = NaN).  Models the trimmed
decimal forms `[+-]digits[.digits]` and the empty string (which is 0);
exotic forms (exponents, hex, `Infinity`) are treated as NaN, which no
claim depends on. -/
def strToNum (s : String) : Option ℚ :=
  let cs := ((s.data.dropWhile (· = ' ')).reverse.dropWhile (· = ' ')).reverse
  if cs.isEmpty then some 0
  else
    let signAndRest : ℚ × List Char :=
      match cs with
      | '-' :: t => (-1, t)
      | '+' :: t => (1, t)
      | t => (1, t)
    let ip := signAndRest.2.takeWhile (·.isDigit)
    let rest := signAndRest.2.dropWhile (·.isDigit)
    match rest with
    | [] => if ip.isEmpty then none else some (signAndRest.1 * digitsToNat ip)
    | '.' :: fp =>
        if fp.all (·.isDigit) && (!ip.isEmpty || !fp.isEmpty) then
          some (signAndRest.1 *
            ((digitsToNat ip : ℚ) + (digitsToNat fp : ℚ) / 10 ^ fp.length))
        else none
    | _ => none

/-- `Number(c)` on a cell (`none` = NaN). -/
def jsNumber : Cell → Option ℚ
  | .null => some 0
  | .str s => strToNum s
  | .num q => some q

/-- The JS idiom `Number(c) || d`: both NaN and 0 fall back to `d`. -/
def numOr (c : Cell) (d : ℚ) : ℚ :=
  match jsNumber c with
  | some q => if q = 0 then d else q
  | none => d

/-- Display text of a numeric cell; JS number-to-string formatting is
approximated (no claim depends on the exact text). -/
def numToDisplay (q : ℚ) : String := toString q

/-- The JS idiom `String(c || d)`: falsy cells (null/undefined, empty
string, zero) fall back to `d`. -/
def cellDisplay (c : Cell) (d : String) : String :=
  match c with
  | .null => d
  | .str s => if s = "" then d else s
  | .num q => if q = 0 then d else numToDisplay q

/-- Indexing `column.values[i]`; out of range behaves like null. -/
def getCell (l : List Cell) (i : Nat) : Cell := l.getD i Cell.null

/-! ## Data-view shape -/

structure CatColumn where
  values : List Cell
  deriving DecidableEq, Repr

structure ValColumn where
  displayName : Option String
  values : List Cell
  deriving DecidableEq, Repr

structure Categorical where
  categories : List CatColumn
  values : List ValColumn
  deriving DecidableEq, Repr

structure DataView where
  categorical : Option Categorical
  deriving DecidableEq, Repr

/-! ## Row parser (`Visual.parseData`) -/

/-- Bar-type tag mapping (applied to the lowercased raw tag);
anything unrecognized falls back to `step`. -/
def parseBarType (s : String) : BarType :=
  if s = "subtotal" then .subtotal
  else if s = "total" then .total
  else if s = "bar" then .bar
  else .step

/-- `valueCol.source.displayName || "Value " + (v+1)`. -/
def measureNameOf (col : ValColumn) (v : Nat) : String :=
  match col.displayName with
  | some s => if s = "" then "Value " ++ toString (v + 1) else s
  | none => "Value " ++ toString (v + 1)

/-- `colorPalette.getColor(name).value || defaultColor`. -/
def colorOf (pal : String → Option String) (defColor : String) (name : String) : String :=
  match pal name with
  | some c => if c = "" then defColor else c
  | none => defColor

/-- The inner loop over the measure columns for row `i`, carrying the
column index `v` (used for the fallback measure name): collects the
non-zero coerced values together with the accumulated total. -/
def collectStacked (pal : String → Option String) (defColor : String)
    (i : Nat) : Nat → List ValColumn → List StackedValue × ℚ
  | _, [] => ([], 0)
  | v, col :: rest =>
    let tl := collectStacked pal defColor i (v + 1) rest
    let val := numOr (getCell col.values i) 0
    if val ≠ 0 then
      let m := measureNameOf col v
      ({ measureName := m, value := val, color := colorOf pal defColor m } :: tl.1,
        val + tl.2)
    else tl

/-- One iteration of the row loop of `parseData`: builds the
`NormalizedBar` record for row `i` (before sorting; the layout fields
are initialized to 0). -/
def parseRow (pal : String → Option String) (defColor : String)
    (catCol barTypeCol : CatColumn) (seqCol : Option CatColumn)
    (vals : List ValColumn) (i : Nat) : BarData :=
  let sv := collectStacked pal defColor i 0 vals
  { category := cellDisplay (getCell catCol.values i) ""
    barType := parseBarType ((cellDisplay (getCell barTypeCol.values i) "step").toLower)
    sequence :=
      match seqCol with
      | some sc => numOr (getCell sc.values i) (i : ℚ)
      | none => (i : ℚ)
    stackedValues := sv.1
    totalValue := sv.2
    startY := 0
    endY := 0
    xPosition := 0 }

/-- The unsorted bar list, one record per row of the category column. -/
def rawBars (pal : String → Option String) (defColor : String)
    (c : Categorical) : List BarData :=
  match c.categories with
  | catCol :: barTypeCol :: rest =>
      (List.range catCol.values.length).map
        (parseRow pal defColor catCol barTypeCol rest.head? c.values)
  | _ => []

/-- `bars.sort((a, b) => a.sequence - b.sequence)`: a stable sort by
`sequence` (ES2019 guarantees `Array.prototype.sort` is stable). -/
def sortBars (l : List BarData) : List BarData :=
  List.insertionSort (fun a b => a.sequence ≤ b.sequence) l

/-- `Visual.parseData`: empty unless there are at least two categorical
columns; otherwise one bar per row, sorted by sequence. -/
def parseData (pal : String → Option String) (defColor : String)
    (c : Categorical) : List BarData :=
  if c.categories.length < 2 then [] else sortBars (rawBars pal defColor c)

/-- Number of input rows (length of the category column). -/
def numRows (c : Categorical) : Nat :=
  match c.categories with
  | catCol :: _ => catCol.values.length
  | [] => 0

/-! ## Layout engine (`Visual.computeBarPositions`)

Margins are `left = 50`, `right = 20`.  The horizontal pass chooses a
dynamic bar width and gap preserving the configured gap/width ratio,
then assigns x positions cumulatively; the vertical pass is a fold over
the sorted bars with state `(runningTotal, lastWaterfallEnd)`. -/

/-- `min(availableWidth / totalUnits, barWidth * 2)` where
`availableWidth = viewportWidth - 50 - 20` and
`totalUnits = numBars + (numBars - 1) * (barGap / barWidth)`. -/
def dynamicBarWidth (vw W G : ℚ) (n : Nat) : ℚ :=
  min ((vw - 50 - 20) / ((n : ℚ) + ((n : ℚ) - 1) * (G / W))) (W * 2)

/-- `dynamicBarWidth * gapRatio`. -/
def dynamicBarGap (vw W G : ℚ) (n : Nat) : ℚ :=
  dynamicBarWidth vw W G n * (G / W)

/-- The x-position loop: `bar.xPosition = currentX;
currentX += dynamicBarWidth + dynamicBarGap`, starting at the left
margin. -/
def setXFrom (x stride : ℚ) : List BarData → List BarData
  | [] => []
  | b :: rest => { b with xPosition := x } :: setXFrom (x + stride) stride rest

/-- One iteration of the waterfall fold.  The state is
`(runningTotal, lastWaterfallEnd)`; the second component is written only
by `step` bars (and read by nothing else, matching the source). -/
def yStep (s : ℚ × ℚ) (b : BarData) : BarData × (ℚ × ℚ) :=
  match b.barType with
  | .step =>
      ({ b with startY := s.1, endY := s.1 + b.totalValue },
        (s.1 + b.totalValue, s.1 + b.totalValue))
  | .subtotal => ({ b with startY := 0, endY := s.1 }, s)
  | .total => ({ b with startY := 0, endY := s.1 }, s)
  | .bar => ({ b with startY := 0, endY := b.totalValue }, s)

/-- The vertical pass from an arbitrary state. -/
def computeYFrom (s : ℚ × ℚ) : List BarData → List BarData
  | [] => []
  | b :: rest => (yStep s b).1 :: computeYFrom (yStep s b).2 rest

/-- The fold state reached after processing a list of bars. -/
def yState (s : ℚ × ℚ) : List BarData → ℚ × ℚ
  | [] => s
  | b :: rest => yState (yStep s b).2 rest

/-- The vertical pass; `runningTotal` and `lastWaterfallEnd` start at 0. -/
def computeY (bars : List BarData) : List BarData :=
  computeYFrom (0, 0) bars

/-- `Visual.computeBarPositions`: x positions, then the waterfall pass;
also returns the computed `(width, gap)` pair stored for the renderer. -/
def computeBarPositions (vw W G : ℚ) (bars : List BarData) :
    List BarData × ℚ × ℚ :=
  let w := dynamicBarWidth vw W G bars.length
  let g := dynamicBarGap vw W G bars.length
  (computeY (setXFrom 50 (w + g) bars), w, g)

/-! ## Separator placement (`Visual.renderChart`, separator part) -/

/-- The scan of the separator loop: `prev` is `bars[i-1]`, the head of
the list is `bars[i]`; the first index `i > 0` with
`bars[i].barType === "bar" && bars[i-1].barType !== "bar"` yields
`bars[i].xPosition - barGap / 2`, otherwise the initial `-1` stands. -/
def sepScan (g : ℚ) : BarData → List BarData → ℚ
  | _, [] => -1
  | prev, b :: rest =>
      if b.barType = .bar ∧ ¬prev.barType = .bar then b.xPosition - g / 2
      else sepScan g b rest

/-- `separatorX` as computed by the loop in `renderChart` (`-1` when no
transition is found; the index-0 bar can never match because of the
`i > 0` guard). -/
def findSepX (g : ℚ) : List BarData → ℚ
  | [] => -1
  | b :: rest => sepScan g b rest

/-- The separator draw instruction: emitted iff `separatorX > 0`,
carrying its x-coordinate. -/
def separatorInstr (g : ℚ) (bars : List BarData) : Option ℚ :=
  if 0 < findSepX g bars then some (findSepX g bars) else none

/-- The gap actually used by `renderChart`:
`(this as any)._computedBarGap || chartSettings.barGap.value` — the
layout-computed gap, except that a falsy (zero) computed gap falls back
to the configured gap.  (A negative computed gap is truthy and kept.) -/
def renderBarGap (computed G : ℚ) : ℚ :=
  if computed = 0 then G else computed

/-- A cumulative-to-independent transition at index `i` of the sorted
bar list: `i > 0`, `bars[i]` is a `bar`, `bars[i-1]` is not. -/
def transAt (l : List BarData) (i : Nat) : Prop :=
  0 < i ∧ i < l.length ∧ (l.getD i noBar).barType = .bar ∧
    ¬(l.getD (i - 1) noBar).barType = .bar

instance (l : List BarData) : DecidablePred (transAt l) := fun _ =>
  by unfold transAt; infer_instance

/-! ## Value formatting (`Visual.formatValue`) -/

/-- `n.toString` left-padded with zeros to `k` digits. -/
def zeroPad (k : Nat) (s : String) : String :=
  String.mk (List.replicate (k - s.length) '0') ++ s

/-- `Math.abs`. -/
def qabs (q : ℚ) : ℚ := if q < 0 then -q else q

/-- Floor of a rational (`num` and `den` with `den > 0`, so flooring
integer division of the numerator by the denominator). -/
def ratFloor (q : ℚ) : Int := Int.fdiv q.num q.den

/-- `q.toFixed(k)` for `q ≥ 0`: round to `k` decimals (half up, the JS
behavior for nonnegative values) and render with exactly `k` fraction
digits. -/
def toFixedPos (k : Nat) (q : ℚ) : String :=
  let n := (ratFloor (q * ((10 ^ k : Nat) : ℚ) + 1 / 2)).toNat
  if k = 0 then toString n
  else toString (n / 10 ^ k) ++ "." ++ zeroPad k (toString (n % 10 ^ k))

/-- `q.toFixed(k)` with the sign. -/
def toFixed (k : Nat) (q : ℚ) : String :=
  if q < 0 then "-" ++ toFixedPos k (-q) else toFixedPos k q

/-- `s.replace(/\.?0+$/, "")`: strip a trailing run of zeros together
with a directly preceding decimal point, if there is such a run. -/
def stripTrailZeros (s : String) : String :=
  let rev := s.data.reverse
  let rest := rev.dropWhile (· = '0')
  if rest.length = rev.length then s
  else
    match rest with
    | '.' :: t => String.mk t.reverse
    | t => String.mk t.reverse

/-- `formatted % 1 === 0`. -/
def isWhole (q : ℚ) : Bool := q.den = 1

/-- `Visual.formatValue`: K/M/B abbreviation of a magnitude. -/
def formatValue (value : ℚ) : String :=
  if value = 0 then "0"
  else
    let a := qabs value
    let sign := if value < 0 then "-" else ""
    if 1000000000 ≤ a then sign ++ toFixed 1 (a / 1000000000) ++ "B"
    else if 1000000 ≤ a then
      sign ++ (if isWhole (a / 1000000) then toFixed 0 (a / 1000000)
        else toFixed 2 (a / 1000000)) ++ "M"
    else if 1000 ≤ a then
      sign ++ (if isWhole (a / 1000) then toFixed 0 (a / 1000)
        else toFixed 2 (a / 1000)) ++ "K"
    else stripTrailZeros (toFixed 2 value)

/-! ## Update entry point (`Visual.update`) -/

/-- Outcome of one update: the empty-state placeholder, or a rendered
chart built from the positioned bars and the computed width/gap. -/
inductive UpdateResult
  | emptyState
  | chart (bars : List BarData) (w g : ℚ)
  deriving DecidableEq, Repr

/-- `Visual.update`: parse, short-circuit to the empty state when the
data view or categorical data is absent or the parser yields no bars,
otherwise lay out and render. -/
def update (pal : String → Option String) (defColor : String)
    (vw _vh W G : ℚ) (dv : Option DataView) : UpdateResult :=
  match dv with
  | none => .emptyState
  | some d =>
    match d.categorical with
    | none => .emptyState
    | some c =>
      let bars := parseData pal defColor c
      if bars.length = 0 then .emptyState
      else
        let res := computeBarPositions vw W G bars
        .chart res.1 res.2.1 res.2.2

/-! ## Sample data for witnesses and counterexamples -/

/-- A bar record as produced by the parser (layout fields zero). -/
def mkBar (t : BarType) (seq tv : ℚ) : BarData :=
  { category := "", barType := t, sequence := seq, stackedValues := []
    totalValue := tv, startY := 0, endY := 0, xPosition := 0 }

/-! ## Vertical pass: general lemmas -/

theorem length_computeYFrom (s : ℚ × ℚ) (l : List BarData) :
    (computeYFrom s l).length = l.length := by
  induction l generalizing s with
  | nil => rfl
  | cons b rest ih => simp [computeYFrom, ih]

theorem yStep_eq_of_step (s : ℚ × ℚ) (b : BarData) (h : b.barType = .step) :
    yStep s b = ({ b with startY := s.1, endY := s.1 + b.totalValue },
      (s.1 + b.totalValue, s.1 + b.totalValue)) := by
  simp [yStep, h]

theorem yStep_eq_of_subtotal (s : ℚ × ℚ) (b : BarData)
    (h : b.barType = .subtotal) :
    yStep s b = ({ b with startY := 0, endY := s.1 }, s) := by
  simp [yStep, h]

theorem yStep_eq_of_total (s : ℚ × ℚ) (b : BarData) (h : b.barType = .total) :
    yStep s b = ({ b with startY := 0, endY := s.1 }, s) := by
  simp [yStep, h]

theorem yStep_eq_of_bar (s : ℚ × ℚ) (b : BarData) (h : b.barType = .bar) :
    yStep s b = ({ b with startY := 0, endY := b.totalValue }, s) := by
  simp [yStep, h]

theorem computeYFrom_getD (l : List BarData) :
    ∀ (s : ℚ × ℚ) (i : Nat), i < l.length →
      (computeYFrom s l).getD i noBar =
        (yStep (yState s (l.take i)) (l.getD i noBar)).1 := by
  induction l with
  | nil => intro s i h; simp at h
  | cons b rest ih =>
    intro s i h
    cases i with
    | zero => simp [computeYFrom, yState]
    | succ i =>
      have h' : i < rest.length := by simpa using h
      simp only [computeYFrom, List.getD_cons_succ, List.take_succ_cons, yState]
      exact ih (yStep s b).2 i h'

theorem yState_take_succ (l : List BarData) :
    ∀ (s : ℚ × ℚ) (i : Nat), i < l.length →
      yState s (l.take (i + 1)) =
        (yStep (yState s (l.take i)) (l.getD i noBar)).2 := by
  induction l with
  | nil => intro s i h; simp at h
  | cons b rest ih =>
    intro s i h
    cases i with
    | zero => simp [yState]
    | succ i =>
      have h' : i < rest.length := by simpa using h
      simp only [List.take_succ_cons, yState, List.getD_cons_succ]
      exact ih (yStep s b).2 i h'

/-- Sum of the `totalValue`s of a list of bars. -/
def sumTotal (l : List BarData) : ℚ := (l.map (fun b => b.totalValue)).sum

theorem sumTotal_nil : sumTotal [] = 0 := rfl

theorem sumTotal_cons (b : BarData) (l : List BarData) :
    sumTotal (b :: l) = b.totalValue + sumTotal l := by
  simp [sumTotal]

theorem sumTotal_take_succ (l : List BarData) :
    ∀ i : Nat, i < l.length →
      sumTotal (l.take (i + 1)) = sumTotal (l.take i) + (l.getD i noBar).totalValue := by
  induction l with
  | nil => intro i h; simp at h
  | cons b rest ih =>
    intro i h
    cases i with
    | zero => simp [sumTotal]
    | succ i =>
      have h' : i < rest.length := by simpa using h
      simp only [List.take_succ_cons, sumTotal_cons, List.getD_cons_succ, ih i h']
      ring

theorem yState_fst_of_step (l : List BarData) :
    ∀ s : ℚ × ℚ, (∀ b ∈ l, b.barType = .step) →
      (yState s l).1 = s.1 + sumTotal l := by
  induction l with
  | nil => intro s _; simp [yState, sumTotal]
  | cons b rest ih =>
    intro s hall
    have hb : b.barType = .step := hall b (List.mem_cons_self b rest)
    have hrest : ∀ x ∈ rest, x.barType = .step := fun x hx =>
      hall x (List.mem_cons_of_mem b hx)
    simp only [yState, yStep, hb, sumTotal_cons]
    rw [ih _ hrest]
    ring

theorem getD_mem_of_lt {l : List BarData} {i : Nat} (h : i < l.length) :
    l.getD i noBar ∈ l := by
  rw [List.getD_eq_getElem l noBar h]
  exact List.getElem_mem h

/-! ## C1: prefix sums for all-`step` lists -/

/-- C1.  For a sorted bar list consisting only of `step` bars, the
vertical pass assigns the bar at index `i` a `startY` equal to the
prefix sum of the totals before it, an `endY` equal to the prefix sum
through it, and advances `runningTotal` to that `endY`. -/
theorem step_bars_prefix_sum (bars : List BarData)
    (hall : ∀ b ∈ bars, b.barType = .step) (i : Nat) (hi : i < bars.length) :
    ((computeY bars).getD i noBar).startY = sumTotal (bars.take i) ∧
      ((computeY bars).getD i noBar).endY = sumTotal (bars.take (i + 1)) ∧
      (yState (0, 0) (bars.take (i + 1))).1 = sumTotal (bars.take (i + 1)) := by
  have hstep : (bars.getD i noBar).barType = .step :=
    hall _ (getD_mem_of_lt hi)
  have hpre : ∀ b ∈ bars.take i, b.barType = .step := fun b hb =>
    hall b (List.take_subset i bars hb)
  have hpre1 : ∀ b ∈ bars.take (i + 1), b.barType = .step := fun b hb =>
    hall b (List.take_subset (i + 1) bars hb)
  have hrt : (yState (0, 0) (bars.take i)).1 = sumTotal (bars.take i) := by
    simpa using yState_fst_of_step (bars.take i) (0, 0) hpre
  have hget := computeYFrom_getD bars (0, 0) i hi
  refine ⟨?_, ?_, ?_⟩
  · rw [computeY, hget, yStep_eq_of_step _ _ hstep]
    exact hrt
  · rw [computeY, hget, yStep_eq_of_step _ _ hstep]
    show (yState (0, 0) (bars.take i)).1 + (bars.getD i noBar).totalValue =
      sumTotal (bars.take (i + 1))
    rw [hrt, sumTotal_take_succ bars i hi]
  · simpa using yState_fst_of_step (bars.take (i + 1)) (0, 0) hpre1

/-- Witness for C1 on a two-bar all-`step` list. -/
theorem step_bars_prefix_sum_witness :
    (∀ b ∈ [mkBar .step 0 100, mkBar .step 1 50], b.barType = .step) ∧
      1 < ([mkBar .step 0 100, mkBar .step 1 50] : List BarData).length ∧
      (((computeY [mkBar .step 0 100, mkBar .step 1 50]).getD 1 noBar).startY =
          sumTotal ([mkBar .step 0 100, mkBar .step 1 50].take 1) ∧
        ((computeY [mkBar .step 0 100, mkBar .step 1 50]).getD 1 noBar).endY =
          sumTotal ([mkBar .step 0 100, mkBar .step 1 50].take 2) ∧
        (yState (0, 0) ([mkBar .step 0 100, mkBar .step 1 50].take 2)).1 =
          sumTotal ([mkBar .step 0 100, mkBar .step 1 50].take 2)) :=
  ⟨by decide, by decide,
    step_bars_prefix_sum [mkBar .step 0 100, mkBar .step 1 50]
      (by decide) 1 (by decide)⟩

/-! ## C2: `subtotal`/`total` bars float and leave the state unchanged -/

/-- C2.  A `subtotal` or `total` bar is assigned `startY = 0` and
`endY = runningTotal`, and the fold state after it equals the state
before it. -/
theorem subtotal_total_floating (bars : List BarData) (i : Nat)
    (hi : i < bars.length)
    (ht : (bars.getD i noBar).barType = .subtotal ∨
      (bars.getD i noBar).barType = .total) :
    ((computeY bars).getD i noBar).startY = 0 ∧
      ((computeY bars).getD i noBar).endY = (yState (0, 0) (bars.take i)).1 ∧
      yState (0, 0) (bars.take (i + 1)) = yState (0, 0) (bars.take i) := by
  have hget := computeYFrom_getD bars (0, 0) i hi
  have hsucc := yState_take_succ bars (0, 0) i hi
  rcases ht with h | h
  · exact ⟨by rw [computeY, hget, yStep_eq_of_subtotal _ _ h],
      by rw [computeY, hget, yStep_eq_of_subtotal _ _ h],
      by rw [hsucc, yStep_eq_of_subtotal _ _ h]⟩
  · exact ⟨by rw [computeY, hget, yStep_eq_of_total _ _ h],
      by rw [computeY, hget, yStep_eq_of_total _ _ h],
      by rw [hsucc, yStep_eq_of_total _ _ h]⟩

/-- Witness for C2 at a concrete `subtotal` bar. -/
theorem subtotal_total_floating_witness :
    1 < ([mkBar .step 0 100, mkBar .subtotal 1 0] : List BarData).length ∧
      (([mkBar .step 0 100, mkBar .subtotal 1 0].getD 1 noBar).barType = .subtotal ∨
        ([mkBar .step 0 100, mkBar .subtotal 1 0].getD 1 noBar).barType = .total) ∧
      (((computeY [mkBar .step 0 100, mkBar .subtotal 1 0]).getD 1 noBar).startY = 0 ∧
        ((computeY [mkBar .step 0 100, mkBar .subtotal 1 0]).getD 1 noBar).endY =
          (yState (0, 0) ([mkBar .step 0 100, mkBar .subtotal 1 0].take 1)).1 ∧
        yState (0, 0) ([mkBar .step 0 100, mkBar .subtotal 1 0].take 2) =
          yState (0, 0) ([mkBar .step 0 100, mkBar .subtotal 1 0].take 1)) :=
  ⟨by decide, Or.inl (by decide),
    subtotal_total_floating [mkBar .step 0 100, mkBar .subtotal 1 0] 1
      (by decide) (Or.inl (by decide))⟩

/-! ## C3: `bar`-type bars are independent of the running total -/

/-- C3.  A `bar`-type bar is assigned `startY = 0` and
`endY = totalValue` whatever the accumulated running total, and the fold
state after it equals the state before it. -/
theorem bar_type_independent (bars : List BarData) (i : Nat)
    (hi : i < bars.length) (ht : (bars.getD i noBar).barType = .bar) :
    ((computeY bars).getD i noBar).startY = 0 ∧
      ((computeY bars).getD i noBar).endY = (bars.getD i noBar).totalValue ∧
      yState (0, 0) (bars.take (i + 1)) = yState (0, 0) (bars.take i) := by
  have hget := computeYFrom_getD bars (0, 0) i hi
  have hsucc := yState_take_succ bars (0, 0) i hi
  exact ⟨by rw [computeY, hget, yStep_eq_of_bar _ _ ht],
    by rw [computeY, hget, yStep_eq_of_bar _ _ ht],
    by rw [hsucc, yStep_eq_of_bar _ _ ht]⟩

/-- Witness for C3 at a concrete `bar`-type bar after a `step` bar. -/
theorem bar_type_independent_witness :
    1 < ([mkBar .step 0 100, mkBar .bar 1 30] : List BarData).length ∧
      ([mkBar .step 0 100, mkBar .bar 1 30].getD 1 noBar).barType = .bar ∧
      (((computeY [mkBar .step 0 100, mkBar .bar 1 30]).getD 1 noBar).startY = 0 ∧
        ((computeY [mkBar .step 0 100, mkBar .bar 1 30]).getD 1 noBar).endY =
          ([mkBar .step 0 100, mkBar .bar 1 30].getD 1 noBar).totalValue ∧
        yState (0, 0) ([mkBar .step 0 100, mkBar .bar 1 30].take 2) =
          yState (0, 0) ([mkBar .step 0 100, mkBar .bar 1 30].take 1)) :=
  ⟨by decide, by decide,
    bar_type_independent [mkBar .step 0 100, mkBar .bar 1 30] 1
      (by decide) (by decide)⟩

/-! ## Horizontal packing lemmas -/

theorem length_setXFrom (l : List BarData) :
    ∀ x stride : ℚ, (setXFrom x stride l).length = l.length := by
  induction l with
  | nil => intro x stride; rfl
  | cons b rest ih => intro x stride; simp [setXFrom, ih]

theorem setXFrom_getD_x (l : List BarData) :
    ∀ (x stride : ℚ) (i : Nat), i < l.length →
      ((setXFrom x stride l).getD i noBar).xPosition = x + (i : ℚ) * stride := by
  induction l with
  | nil => intro x stride i h; simp at h
  | cons b rest ih =>
    intro x stride i h
    cases i with
    | zero => simp [setXFrom]
    | succ i =>
      have h' : i < rest.length := by simpa using h
      have := ih (x + stride) stride i h'
      simp only [setXFrom, List.getD_cons_succ, this]
      push_cast
      ring

theorem computeYFrom_getD_x (l : List BarData) (s : ℚ × ℚ) (i : Nat)
    (hi : i < l.length) :
    ((computeYFrom s l).getD i noBar).xPosition = (l.getD i noBar).xPosition := by
  rw [computeYFrom_getD l s i hi]
  cases h : (l.getD i noBar).barType
  · rw [yStep_eq_of_step _ _ h]
  · rw [yStep_eq_of_subtotal _ _ h]
  · rw [yStep_eq_of_total _ _ h]
  · rw [yStep_eq_of_bar _ _ h]

theorem computeYFrom_getD_barType (l : List BarData) (s : ℚ × ℚ) (i : Nat)
    (hi : i < l.length) :
    ((computeYFrom s l).getD i noBar).barType = (l.getD i noBar).barType := by
  rw [computeYFrom_getD l s i hi]
  cases h : (l.getD i noBar).barType
  · rw [yStep_eq_of_step _ _ h]; exact h
  · rw [yStep_eq_of_subtotal _ _ h]; exact h
  · rw [yStep_eq_of_total _ _ h]; exact h
  · rw [yStep_eq_of_bar _ _ h]; exact h

theorem length_positioned (vw W G : ℚ) (bars : List BarData) :
    (computeBarPositions vw W G bars).1.length = bars.length := by
  show (computeYFrom (0, 0) (setXFrom 50 _ bars)).length = bars.length
  rw [length_computeYFrom, length_setXFrom]

theorem positioned_getD_x (vw W G : ℚ) (bars : List BarData) (i : Nat)
    (hi : i < bars.length) :
    (((computeBarPositions vw W G bars).1).getD i noBar).xPosition =
      50 + (i : ℚ) * (dynamicBarWidth vw W G bars.length +
        dynamicBarGap vw W G bars.length) := by
  show ((computeYFrom (0, 0) (setXFrom 50 _ bars)).getD i noBar).xPosition = _
  rw [computeYFrom_getD_x _ _ _ (by rw [length_setXFrom]; exact hi),
    setXFrom_getD_x bars _ _ i hi]

/-! ## C4: horizontal packing -/

/-- C4.  With `N ≥ 1` bars, positive viewport width and positive
configured width `W` and gap `G` (ratio `r = G/W`), the packing computes
`w = min(A / (N + (N-1)·r), 2·W)` with `A = viewportWidth - 50 - 20`,
`g = w·r`, assigns bar `i` the x-position `50 + i·(w+g)`, and
consequently `w ≤ 2·W` and `N·w + (N-1)·g ≤ A`. -/
theorem horizontal_packing (vw W G : ℚ) (bars : List BarData)
    (hne : bars ≠ []) (_hvw : 0 < vw) (hW : 0 < W) (hG : 0 < G) :
    (computeBarPositions vw W G bars).2.1 =
        min ((vw - 50 - 20) /
          ((bars.length : ℚ) + ((bars.length : ℚ) - 1) * (G / W))) (2 * W) ∧
      (computeBarPositions vw W G bars).2.2 =
        (computeBarPositions vw W G bars).2.1 * (G / W) ∧
      (∀ i : Nat, i < bars.length →
        ((computeBarPositions vw W G bars).1.getD i noBar).xPosition =
          50 + (i : ℚ) * ((computeBarPositions vw W G bars).2.1 +
            (computeBarPositions vw W G bars).2.2)) ∧
      (computeBarPositions vw W G bars).2.1 ≤ 2 * W ∧
      (bars.length : ℚ) * (computeBarPositions vw W G bars).2.1 +
          ((bars.length : ℚ) - 1) * (computeBarPositions vw W G bars).2.2 ≤
        vw - 50 - 20 := by
  have hw2 : (computeBarPositions vw W G bars).2.1 =
      dynamicBarWidth vw W G bars.length := rfl
  have hg2 : (computeBarPositions vw W G bars).2.2 =
      dynamicBarGap vw W G bars.length := rfl
  have hn1 : (1 : ℚ) ≤ (bars.length : ℚ) := by
    have : 0 < bars.length := List.length_pos.mpr hne
    exact_mod_cast this
  have hr : 0 < G / W := div_pos hG hW
  have htu : 0 < (bars.length : ℚ) + ((bars.length : ℚ) - 1) * (G / W) := by
    have h1 : 0 ≤ ((bars.length : ℚ) - 1) * (G / W) :=
      mul_nonneg (by linarith) hr.le
    linarith
  refine ⟨?_, ?_, ?_, ?_, ?_⟩
  · rw [hw2, dynamicBarWidth, mul_comm W 2]
  · rw [hw2, hg2, dynamicBarGap]
  · intro i hi
    rw [hw2, hg2, positioned_getD_x vw W G bars i hi]
  · rw [hw2, dynamicBarWidth, mul_comm 2 W]
    exact min_le_right _ _
  · rw [hw2, hg2, dynamicBarGap]
    have hle : dynamicBarWidth vw W G bars.length ≤
        (vw - 50 - 20) /
          ((bars.length : ℚ) + ((bars.length : ℚ) - 1) * (G / W)) :=
      min_le_left _ _
    have hmul := mul_le_mul_of_nonneg_right hle htu.le
    rw [div_mul_cancel₀ _ htu.ne'] at hmul
    calc (bars.length : ℚ) * dynamicBarWidth vw W G bars.length +
          ((bars.length : ℚ) - 1) * (dynamicBarWidth vw W G bars.length * (G / W))
        = dynamicBarWidth vw W G bars.length *
            ((bars.length : ℚ) + ((bars.length : ℚ) - 1) * (G / W)) := by ring
      _ ≤ vw - 50 - 20 := hmul

/-- Witness for C4 on a one-bar list in a 500-wide viewport. -/
theorem horizontal_packing_witness :
    ([mkBar .step 0 100] : List BarData) ≠ [] ∧ (0 : ℚ) < 500 ∧
      (0 : ℚ) < 40 ∧ (0 : ℚ) < 10 ∧
      ((computeBarPositions 500 40 10 [mkBar .step 0 100]).2.1 =
          min ((500 - 50 - 20) /
            (([mkBar .step 0 100].length : ℚ) +
              (([mkBar .step 0 100].length : ℚ) - 1) * (10 / 40))) (2 * 40) ∧
        (computeBarPositions 500 40 10 [mkBar .step 0 100]).2.2 =
          (computeBarPositions 500 40 10 [mkBar .step 0 100]).2.1 * (10 / 40) ∧
        (∀ i : Nat, i < [mkBar .step 0 100].length →
          ((computeBarPositions 500 40 10 [mkBar .step 0 100]).1.getD i
              noBar).xPosition =
            50 + (i : ℚ) *
              ((computeBarPositions 500 40 10 [mkBar .step 0 100]).2.1 +
                (computeBarPositions 500 40 10 [mkBar .step 0 100]).2.2)) ∧
        (computeBarPositions 500 40 10 [mkBar .step 0 100]).2.1 ≤ 2 * 40 ∧
        ([mkBar .step 0 100].length : ℚ) *
              (computeBarPositions 500 40 10 [mkBar .step 0 100]).2.1 +
            (([mkBar .step 0 100].length : ℚ) - 1) *
              (computeBarPositions 500 40 10 [mkBar .step 0 100]).2.2 ≤
          500 - 50 - 20) :=
  ⟨by decide, by decide, by decide, by decide,
    horizontal_packing 500 40 10 [mkBar .step 0 100]
      (by decide) (by decide) (by decide) (by decide)⟩

/-! ## C5: value formatting on the representative inputs

The spec's example `1500 → "1.5K"` does not match the code: the K/M
branches render a non-integer quotient with `toFixed(2)`, which keeps
the trailing zero, so `formatValue(1500)` is `"1.50K"`. -/

/-- C5 counterexample: the code formats 1500 as `"1.50K"`, not the
claimed `"1.5K"`. -/
theorem formatValue_1500_ne_claimed : ¬formatValue 1500 = "1.5K" := by decide

/-- C5 amended: the representative inputs with `1500 → "1.50K"` in
place of the claimed `"1.5K"`. -/
theorem formatValue_examples :
    formatValue 0 = "0" ∧ formatValue 1500 = "1.50K" ∧
      formatValue 2000000 = "2M" ∧ formatValue (-950) = "-950" ∧
      formatValue 1234567890 = "1.2B" := by
  refine ⟨by decide, by decide, by decide, by decide, by decide⟩

/-! ## C6: parser output count, ordering, stability -/

instance : IsTotal BarData (fun a b => a.sequence ≤ b.sequence) :=
  ⟨fun a b => le_total a.sequence b.sequence⟩

instance : IsTrans BarData (fun a b => a.sequence ≤ b.sequence) :=
  ⟨fun _ _ _ h1 h2 => le_trans h1 h2⟩

theorem length_sortBars (l : List BarData) : (sortBars l).length = l.length :=
  List.length_insertionSort _ l

theorem sorted_sortBars (l : List BarData) :
    List.Sorted (fun a b : BarData => a.sequence ≤ b.sequence) (sortBars l) :=
  List.sorted_insertionSort _ l

theorem filter_seq_orderedInsert (s : ℚ) (a : BarData) (l : List BarData) :
    (List.orderedInsert (fun x y : BarData => x.sequence ≤ y.sequence) a l).filter
        (fun b => b.sequence = s) =
      if a.sequence = s then a :: l.filter (fun b => b.sequence = s)
      else l.filter (fun b => b.sequence = s) := by
  induction l with
  | nil =>
    by_cases h : a.sequence = s <;> simp [List.orderedInsert, h]
  | cons b t ih =>
    rw [List.orderedInsert]
    by_cases hab : a.sequence ≤ b.sequence
    · rw [if_pos hab]
      by_cases ha : a.sequence = s <;> simp [List.filter_cons, ha]
    · rw [if_neg hab]
      by_cases ha : a.sequence = s
      · have hb : ¬b.sequence = s := fun hb => hab (by rw [ha, hb])
        simp [List.filter_cons, ha, hb, ih]
      · by_cases hb : b.sequence = s <;> simp [List.filter_cons, ha, hb, ih]

theorem filter_seq_sortBars (s : ℚ) (l : List BarData) :
    (sortBars l).filter (fun b => b.sequence = s) =
      l.filter (fun b => b.sequence = s) := by
  induction l with
  | nil => rfl
  | cons a t ih =>
    have ih2 : (List.insertionSort (fun x y : BarData => x.sequence ≤ y.sequence)
          t).filter (fun b => b.sequence = s) =
        t.filter (fun b => b.sequence = s) := ih
    show (List.orderedInsert _ a
        (List.insertionSort (fun x y : BarData => x.sequence ≤ y.sequence) t)).filter
        (fun b => b.sequence = s) = _
    rw [filter_seq_orderedInsert]
    by_cases ha : a.sequence = s <;> simp [List.filter_cons, ha, ih2]

theorem rawBars_length (pal : String → Option String) (defColor : String)
    (c : Categorical) (h2 : 2 ≤ c.categories.length) :
    (rawBars pal defColor c).length = numRows c := by
  rcases c with ⟨cats, vals⟩
  match cats with
  | [] => simp at h2
  | [x] => simp at h2
  | x :: y :: rest => simp [rawBars, numRows]

theorem parseData_eq_sort (pal : String → Option String) (defColor : String)
    (c : Categorical) (h2 : 2 ≤ c.categories.length) :
    parseData pal defColor c = sortBars (rawBars pal defColor c) := by
  rw [parseData, if_neg (by omega)]

/-- C6.  For a well-formed input (at least two categorical columns,
`n > 0` rows), the parser outputs exactly `n` bars, sorted ascending by
`sequence`, and stably: for every sequence value the bars carrying it
appear in the same order as in the unsorted row list. -/
theorem parser_count_sorted_stable (pal : String → Option String)
    (defColor : String) (c : Categorical) (h2 : 2 ≤ c.categories.length)
    (_hn : 0 < numRows c) :
    (parseData pal defColor c).length = numRows c ∧
      List.Sorted (fun a b : BarData => a.sequence ≤ b.sequence)
        (parseData pal defColor c) ∧
      ∀ s : ℚ, (parseData pal defColor c).filter (fun b => b.sequence = s) =
        (rawBars pal defColor c).filter (fun b => b.sequence = s) := by
  rw [parseData_eq_sort pal defColor c h2]
  exact ⟨by rw [length_sortBars, rawBars_length pal defColor c h2],
    sorted_sortBars _, fun s => filter_seq_sortBars s _⟩

/-- A small concrete two-row data view for the parser witnesses. -/
def sampleCat : Categorical :=
  { categories := [⟨[Cell.str "A", Cell.str "B"]⟩,
      ⟨[Cell.str "step", Cell.str "bar"]⟩, ⟨[Cell.num 5, Cell.num 2]⟩]
    values := [⟨some "m1", [Cell.num 3, Cell.num (-4)]⟩] }

/-- Witness for C6 on `sampleCat`. -/
theorem parser_count_sorted_stable_witness :
    2 ≤ sampleCat.categories.length ∧ 0 < numRows sampleCat ∧
      ((parseData (fun _ => none) "#4472C4" sampleCat).length =
          numRows sampleCat ∧
        List.Sorted (fun a b : BarData => a.sequence ≤ b.sequence)
          (parseData (fun _ => none) "#4472C4" sampleCat) ∧
        ∀ s : ℚ, (parseData (fun _ => none) "#4472C4" sampleCat).filter
            (fun b => b.sequence = s) =
          (rawBars (fun _ => none) "#4472C4" sampleCat).filter
            (fun b => b.sequence = s)) :=
  ⟨by decide, by decide,
    parser_count_sorted_stable (fun _ => none) "#4472C4" sampleCat
      (by decide) (by decide)⟩

/-! ## C7: zero measures are dropped, totals are sums of kept values -/

theorem collectStacked_values (pal : String → Option String) (defColor : String)
    (i : Nat) :
    ∀ (vals : List ValColumn) (v : Nat),
      (collectStacked pal defColor i v vals).1.map (fun sv => sv.value) =
        (vals.map (fun col => numOr (getCell col.values i) 0)).filter
          (fun q => q ≠ 0) := by
  intro vals
  induction vals with
  | nil => intro v; rfl
  | cons col rest ih =>
    intro v
    by_cases h : numOr (getCell col.values i) 0 = 0 <;>
      simp [collectStacked, h, ih (v + 1), List.filter_cons]

theorem collectStacked_total (pal : String → Option String) (defColor : String)
    (i : Nat) :
    ∀ (vals : List ValColumn) (v : Nat),
      (collectStacked pal defColor i v vals).2 =
        ((collectStacked pal defColor i v vals).1.map (fun sv => sv.value)).sum := by
  intro vals
  induction vals with
  | nil => intro v; rfl
  | cons col rest ih =>
    intro v
    by_cases h : numOr (getCell col.values i) 0 = 0 <;>
      simp [collectStacked, h, ih (v + 1)]

theorem parseRow_stackedValues (pal : String → Option String) (defColor : String)
    (catCol barTypeCol : CatColumn) (seqCol : Option CatColumn)
    (vals : List ValColumn) (i : Nat) :
    (parseRow pal defColor catCol barTypeCol seqCol vals i).stackedValues =
      (collectStacked pal defColor i 0 vals).1 := rfl

theorem parseRow_totalValue (pal : String → Option String) (defColor : String)
    (catCol barTypeCol : CatColumn) (seqCol : Option CatColumn)
    (vals : List ValColumn) (i : Nat) :
    (parseRow pal defColor catCol barTypeCol seqCol vals i).totalValue =
      (collectStacked pal defColor i 0 vals).2 := rfl

/-- C7.  For a row `i` whose measure columns are `l1 ++ col :: l2` with
`col` coercing to exactly zero at that row: the kept stacked values are
the non-zero coerced measure values, verbatim and in column order; the
total is the sum of the kept values; and dropping the zero column
changes neither the other measures' kept values nor the total. -/
theorem zero_measures_dropped (pal : String → Option String) (defColor : String)
    (catCol barTypeCol : CatColumn) (seqCol : Option CatColumn)
    (i : Nat) (l1 l2 : List ValColumn) (col : ValColumn)
    (hz : numOr (getCell col.values i) 0 = 0) :
    (parseRow pal defColor catCol barTypeCol seqCol (l1 ++ col :: l2)
          i).stackedValues.map (fun sv => sv.value) =
        ((l1 ++ col :: l2).map (fun vc => numOr (getCell vc.values i) 0)).filter
          (fun q => q ≠ 0) ∧
      (parseRow pal defColor catCol barTypeCol seqCol (l1 ++ col :: l2)
          i).totalValue =
        ((parseRow pal defColor catCol barTypeCol seqCol (l1 ++ col :: l2)
          i).stackedValues.map (fun sv => sv.value)).sum ∧
      (parseRow pal defColor catCol barTypeCol seqCol (l1 ++ col :: l2)
          i).stackedValues.map (fun sv => sv.value) =
        (parseRow pal defColor catCol barTypeCol seqCol (l1 ++ l2)
          i).stackedValues.map (fun sv => sv.value) ∧
      (parseRow pal defColor catCol barTypeCol seqCol (l1 ++ col :: l2)
          i).totalValue =
        (parseRow pal defColor catCol barTypeCol seqCol (l1 ++ l2)
          i).totalValue := by
  have hv1 := collectStacked_values pal defColor i (l1 ++ col :: l2) 0
  have hv2 := collectStacked_values pal defColor i (l1 ++ l2) 0
  have ht1 := collectStacked_total pal defColor i (l1 ++ col :: l2) 0
  have ht2 := collectStacked_total pal defColor i (l1 ++ l2) 0
  have hmap : (collectStacked pal defColor i 0 (l1 ++ col :: l2)).1.map
        (fun sv => sv.value) =
      (collectStacked pal defColor i 0 (l1 ++ l2)).1.map (fun sv => sv.value) := by
    rw [hv1, hv2]
    simp [List.filter_append, List.filter_cons, hz]
  refine ⟨?_, ?_, ?_, ?_⟩
  · rw [parseRow_stackedValues]; exact hv1
  · rw [parseRow_stackedValues, parseRow_totalValue]; exact ht1
  · rw [parseRow_stackedValues, parseRow_stackedValues]; exact hmap
  · rw [parseRow_totalValue, parseRow_totalValue, ht1, ht2, hmap]

/-- Sample measure columns for the C7 witness. -/
def m1Col : ValColumn := ⟨some "m1", [Cell.num 5]⟩

def zCol : ValColumn := ⟨some "z", [Cell.num 0]⟩

def m2Col : ValColumn := ⟨some "m2", [Cell.num (-3)]⟩

def catColA : CatColumn := ⟨[Cell.str "A"]⟩

def btColA : CatColumn := ⟨[Cell.str "step"]⟩

/-- Witness for C7 with one zero measure between two non-zero ones. -/
theorem zero_measures_dropped_witness :
    numOr (getCell zCol.values 0) 0 = 0 ∧
      ((parseRow (fun _ => none) "#4472C4" catColA btColA none
            ([m1Col] ++ zCol :: [m2Col]) 0).stackedValues.map
            (fun sv => sv.value) =
          (([m1Col] ++ zCol :: [m2Col]).map
            (fun vc => numOr (getCell vc.values 0) 0)).filter (fun q => q ≠ 0) ∧
        (parseRow (fun _ => none) "#4472C4" catColA btColA none
            ([m1Col] ++ zCol :: [m2Col]) 0).totalValue =
          ((parseRow (fun _ => none) "#4472C4" catColA btColA none
            ([m1Col] ++ zCol :: [m2Col]) 0).stackedValues.map
            (fun sv => sv.value)).sum ∧
        (parseRow (fun _ => none) "#4472C4" catColA btColA none
            ([m1Col] ++ zCol :: [m2Col]) 0).stackedValues.map
            (fun sv => sv.value) =
          (parseRow (fun _ => none) "#4472C4" catColA btColA none
            ([m1Col] ++ [m2Col]) 0).stackedValues.map (fun sv => sv.value) ∧
        (parseRow (fun _ => none) "#4472C4" catColA btColA none
            ([m1Col] ++ zCol :: [m2Col]) 0).totalValue =
          (parseRow (fun _ => none) "#4472C4" catColA btColA none
            ([m1Col] ++ [m2Col]) 0).totalValue) :=
  ⟨by decide,
    zero_measures_dropped (fun _ => none) "#4472C4" catColA btColA none 0
      [m1Col] [m2Col] zCol (by decide)⟩

/-! ## C8: the empty state is produced exactly for degenerate input -/

theorem parseData_length (pal : String → Option String) (defColor : String)
    (c : Categorical) :
    (parseData pal defColor c).length =
      if c.categories.length < 2 then 0 else numRows c := by
  by_cases h : c.categories.length < 2
  · rw [parseData, if_pos h, if_pos h]; rfl
  · rw [parseData, if_neg h, if_neg h, length_sortBars,
      rawBars_length pal defColor c (by omega)]

/-- C8.  An update yields the empty-state output iff the data view is
absent, its categorical data is absent, there are fewer than two
categorical columns, or there are zero rows. -/
theorem empty_state_iff (pal : String → Option String) (defColor : String)
    (vw vh W G : ℚ) (dv : Option DataView) :
    update pal defColor vw vh W G dv = .emptyState ↔
      (dv = none ∨ ∃ d, dv = some d ∧ (d.categorical = none ∨
        ∃ c, d.categorical = some c ∧
          (c.categories.length < 2 ∨ numRows c = 0))) := by
  cases dv with
  | none => exact ⟨fun _ => Or.inl rfl, fun _ => rfl⟩
  | some d =>
    cases hcat : d.categorical with
    | none =>
      constructor
      · intro _; exact Or.inr ⟨d, rfl, Or.inl hcat⟩
      · intro _; simp [update, hcat]
    | some c =>
      constructor
      · intro h
        by_cases h0 : (parseData pal defColor c).length = 0
        · refine Or.inr ⟨d, rfl, Or.inr ⟨c, hcat, ?_⟩⟩
          by_cases h2 : c.categories.length < 2
          · exact Or.inl h2
          · right
            have hlen := parseData_length pal defColor c
            rw [if_neg h2] at hlen
            rw [← hlen]
            exact h0
        · exfalso
          simp only [update, hcat] at h
          rw [if_neg h0] at h
          exact UpdateResult.noConfusion h
      · intro h
        have h0 : (parseData pal defColor c).length = 0 := by
          rcases h with h | ⟨d', hd', hin⟩
          · cases h
          · injection hd' with hdd
            subst hdd
            rcases hin with hnone | ⟨c', hc', hcase⟩
            · rw [hcat] at hnone; cases hnone
            · rw [hcat] at hc'
              injection hc' with hcc
              subst hcc
              have hlen := parseData_length pal defColor c
              rcases hcase with h2 | hr
              · rw [if_pos h2] at hlen; exact hlen
              · by_cases h2 : c.categories.length < 2
                · rw [if_pos h2] at hlen; exact hlen
                · rw [if_neg h2] at hlen; rw [hlen]; exact hr
        simp only [update, hcat]
        rw [if_pos h0]

/-! ## C10: an explicit sequence value of 0 falls back to the row index -/

/-- C10.  With a sequence column present, a cell that is missing,
non-numeric (`Number` gives NaN, modelled as `none`), or coercing to
exactly 0 makes the parsed `sequence` equal the row's positional
index — including the case of an explicitly supplied 0. -/
theorem sequence_zero_replaced_by_index (pal : String → Option String)
    (defColor : String) (catCol barTypeCol : CatColumn) (sq : CatColumn)
    (vals : List ValColumn) (i : Nat)
    (h : jsNumber (getCell sq.values i) = none ∨
      jsNumber (getCell sq.values i) = some 0) :
    (parseRow pal defColor catCol barTypeCol (some sq) vals i).sequence =
      (i : ℚ) := by
  show numOr (getCell sq.values i) (i : ℚ) = (i : ℚ)
  rcases h with h | h <;> simp [numOr, h]

/-- Witness for C10: a row whose sequence cell is the number 0 gets its
positional index (row 1) instead. -/
theorem sequence_zero_replaced_by_index_witness :
    (jsNumber (getCell (⟨[Cell.num 7, Cell.num 0]⟩ : CatColumn).values 1) = none ∨
      jsNumber (getCell (⟨[Cell.num 7, Cell.num 0]⟩ : CatColumn).values 1) =
        some 0) ∧
      (parseRow (fun _ => none) "#4472C4" ⟨[Cell.str "A", Cell.str "B"]⟩
        ⟨[Cell.str "step", Cell.str "step"]⟩ (some ⟨[Cell.num 7, Cell.num 0]⟩)
        [] 1).sequence = ((1 : Nat) : ℚ) :=
  ⟨Or.inr (by decide),
    sequence_zero_replaced_by_index (fun _ => none) "#4472C4"
      ⟨[Cell.str "A", Cell.str "B"]⟩ ⟨[Cell.str "step", Cell.str "step"]⟩
      ⟨[Cell.num 7, Cell.num 0]⟩ [] 1 (Or.inr (by decide))⟩

/-! ## C9: separator placement -/

theorem transAt_zero (l : List BarData) : ¬transAt l 0 := by
  simp [transAt]

theorem transAt_cons_one (p b : BarData) (rest : List BarData) :
    transAt (p :: b :: rest) 1 ↔ (b.barType = .bar ∧ ¬p.barType = .bar) := by
  unfold transAt
  constructor
  · rintro ⟨_, _, h3, h4⟩
    exact ⟨h3, h4⟩
  · rintro ⟨h3, h4⟩
    exact ⟨Nat.zero_lt_one, by simp only [List.length_cons]; omega, h3, h4⟩

theorem transAt_cons_succ_succ (p b : BarData) (rest : List BarData) (j : Nat) :
    transAt (p :: b :: rest) (j + 2) ↔ transAt (b :: rest) (j + 1) := by
  unfold transAt
  simp only [List.length_cons, List.getD_cons_succ, Nat.succ_sub_one]
  constructor <;> intro h <;> obtain ⟨h1, h2, h3, h4⟩ := h <;>
    exact ⟨by omega, by omega, h3, h4⟩

theorem sepScan_nil (g : ℚ) (p : BarData) : sepScan g p [] = -1 := rfl

theorem sepScan_cons (g : ℚ) (p b : BarData) (rest : List BarData) :
    sepScan g p (b :: rest) =
      if b.barType = .bar ∧ ¬p.barType = .bar then b.xPosition - g / 2
      else sepScan g b rest := rfl

theorem sepScan_of_no_trans (g : ℚ) :
    ∀ (rest : List BarData) (p : BarData),
      (∀ j : Nat, ¬transAt (p :: rest) (j + 1)) → sepScan g p rest = -1 := by
  intro rest
  induction rest with
  | nil => intro p _; rfl
  | cons b t ih =>
    intro p h
    have h0 : ¬(b.barType = .bar ∧ ¬p.barType = .bar) := fun hc =>
      h 0 ((transAt_cons_one p b t).mpr hc)
    rw [sepScan_cons, if_neg h0]
    exact ih b (fun j hj => h (j + 1) ((transAt_cons_succ_succ p b t j).mpr hj))

theorem sepScan_first (g : ℚ) :
    ∀ (rest : List BarData) (p : BarData) (i : Nat),
      transAt (p :: rest) (i + 1) →
      (∀ j : Nat, j < i + 1 → ¬transAt (p :: rest) j) →
      sepScan g p rest = ((p :: rest).getD (i + 1) noBar).xPosition - g / 2 := by
  intro rest
  induction rest with
  | nil =>
    intro p i ht _
    exfalso
    have h2 := ht.2.1
    simp only [List.length_cons, List.length_nil] at h2
    omega
  | cons b t ih =>
    intro p i ht hmin
    cases i with
    | zero =>
      have hc := (transAt_cons_one p b t).mp ht
      rw [sepScan_cons, if_pos hc]
      rfl
    | succ i =>
      have hnot1 : ¬(b.barType = .bar ∧ ¬p.barType = .bar) := fun hc =>
        hmin 1 (by omega) ((transAt_cons_one p b t).mpr hc)
      rw [sepScan_cons, if_neg hnot1]
      have ht' : transAt (b :: t) (i + 1) :=
        (transAt_cons_succ_succ p b t i).mp ht
      have hmin' : ∀ j : Nat, j < i + 1 → ¬transAt (b :: t) j := by
        intro j hj
        cases j with
        | zero => exact transAt_zero _
        | succ j =>
          exact fun hc =>
            hmin (j + 2) (by omega) ((transAt_cons_succ_succ p b t j).mpr hc)
      rw [ih b i ht' hmin']
      rfl

theorem findSepX_of_no_trans (g : ℚ) (l : List BarData)
    (h : ∀ i : Nat, ¬transAt l i) : findSepX g l = -1 := by
  cases l with
  | nil => rfl
  | cons b rest => exact sepScan_of_no_trans g rest b (fun j => h (j + 1))

theorem findSepX_first (g : ℚ) (l : List BarData) (i : Nat)
    (ht : transAt l i) (hmin : ∀ j : Nat, j < i → ¬transAt l j) :
    findSepX g l = (l.getD i noBar).xPosition - g / 2 := by
  cases l with
  | nil => exact absurd ht.2.1 (Nat.not_lt_zero i)
  | cons b rest =>
    cases i with
    | zero => exact absurd ht (transAt_zero _)
    | succ i => exact sepScan_first g rest b i ht hmin

/-- C9 counterexample.  Nine `step` bars followed by one `bar`-type bar
in a 1-pixel-wide (positive-width) viewport with the default bar
width/gap settings: the cumulative-to-independent transition exists at
index 9, but the computed `separatorX` is negative, so no separator line
is emitted, contradicting the claimed "if and only if". -/
def cexBars : List BarData :=
  [mkBar .step 0 10, mkBar .step 1 10, mkBar .step 2 10, mkBar .step 3 10,
    mkBar .step 4 10, mkBar .step 5 10, mkBar .step 6 10, mkBar .step 7 10,
    mkBar .step 8 10, mkBar .bar 9 30]

/-- C9 fails as stated: a transition exists in the positioned bar list
yet no separator is emitted (the rendering gap is the computed gap here,
which is negative and hence truthy). -/
theorem separator_missing_despite_transition :
    (0 : ℚ) < 1 ∧
      transAt ((computeBarPositions 1 40 10 cexBars).1) 9 ∧
      separatorInstr (renderBarGap ((computeBarPositions 1 40 10 cexBars).2.2) 10)
        ((computeBarPositions 1 40 10 cexBars).1) = none :=
  ⟨by decide, by decide, by decide⟩

/-- C9 amended.  When the viewport is at least as wide as the fixed
margins (70) and the configured gap is below 100 (the settings pane caps
it at 50), a separator is emitted iff a cumulative-to-independent
transition exists in the sorted positioned bars, and it is placed at the
first such transition, at `xPosition - gap/2` — where the gap is the one
`renderChart` uses: the computed gap, falling back to the configured gap
when the computed gap is zero (which happens exactly at viewport width
70). -/
theorem separator_iff_first_transition (vw W G : ℚ) (bars : List BarData)
    (h70 : 70 ≤ vw) (hW : 0 < W) (hG : 0 < G) (hG100 : G < 100) :
    ((∃ i : Nat, transAt ((computeBarPositions vw W G bars).1) i) ↔
      (separatorInstr (renderBarGap ((computeBarPositions vw W G bars).2.2) G)
        ((computeBarPositions vw W G bars).1)).isSome = true) ∧
    ∀ i : Nat, transAt ((computeBarPositions vw W G bars).1) i →
      (∀ j : Nat, j < i → ¬transAt ((computeBarPositions vw W G bars).1) j) →
      separatorInstr (renderBarGap ((computeBarPositions vw W G bars).2.2) G)
          ((computeBarPositions vw W G bars).1) =
        some (((computeBarPositions vw W G bars).1.getD i noBar).xPosition -
          renderBarGap ((computeBarPositions vw W G bars).2.2) G / 2) := by
  have hlen := length_positioned vw W G bars
  have hg2 : (computeBarPositions vw W G bars).2.2 =
      dynamicBarGap vw W G bars.length := rfl
  have hr : 0 < G / W := div_pos hG hW
  have hpos : ∀ i : Nat, transAt ((computeBarPositions vw W G bars).1) i →
      0 < ((computeBarPositions vw W G bars).1.getD i noBar).xPosition -
        renderBarGap ((computeBarPositions vw W G bars).2.2) G / 2 := by
    intro i hi
    obtain ⟨hi0, hilen, _, _⟩ := hi
    rw [hlen] at hilen
    have hx := positioned_getD_x vw W G bars i hilen
    rw [hx, hg2]
    have hn1 : (1 : ℚ) ≤ (bars.length : ℚ) := by
      have : 0 < bars.length := by omega
      exact_mod_cast this
    have hA : 0 ≤ vw - 50 - 20 := by linarith
    have htu : 0 < (bars.length : ℚ) + ((bars.length : ℚ) - 1) * (G / W) := by
      have h1 : 0 ≤ ((bars.length : ℚ) - 1) * (G / W) :=
        mul_nonneg (by linarith) hr.le
      linarith
    have hw0 : 0 ≤ dynamicBarWidth vw W G bars.length := by
      rw [dynamicBarWidth]
      exact le_min (div_nonneg hA htu.le) (by linarith)
    have hg0 : 0 ≤ dynamicBarGap vw W G bars.length := by
      rw [dynamicBarGap]
      exact mul_nonneg hw0 hr.le
    have hi1 : (1 : ℚ) ≤ (i : ℚ) := by exact_mod_cast hi0
    by_cases hgc : dynamicBarGap vw W G bars.length = 0
    · have hwz : dynamicBarWidth vw W G bars.length = 0 := by
        rw [dynamicBarGap] at hgc
        rcases mul_eq_zero.mp hgc with h | h
        · exact h
        · exact absurd h hr.ne'
      simp only [renderBarGap, if_pos hgc]
      rw [hgc, hwz]
      have : (i : ℚ) * (0 + 0) = 0 := by ring
      rw [this]
      linarith
    · simp only [renderBarGap, if_neg hgc]
      have hgpos : 0 < dynamicBarGap vw W G bars.length :=
        lt_of_le_of_ne hg0 (Ne.symm hgc)
      have hstride : 0 ≤ dynamicBarWidth vw W G bars.length +
          dynamicBarGap vw W G bars.length := by linarith
      have hmul : 1 * (dynamicBarWidth vw W G bars.length +
            dynamicBarGap vw W G bars.length) ≤
          (i : ℚ) * (dynamicBarWidth vw W G bars.length +
            dynamicBarGap vw W G bars.length) :=
        mul_le_mul_of_nonneg_right hi1 hstride
      linarith
  have hsecond : ∀ i : Nat, transAt ((computeBarPositions vw W G bars).1) i →
      (∀ j : Nat, j < i → ¬transAt ((computeBarPositions vw W G bars).1) j) →
      separatorInstr (renderBarGap ((computeBarPositions vw W G bars).2.2) G)
          ((computeBarPositions vw W G bars).1) =
        some (((computeBarPositions vw W G bars).1.getD i noBar).xPosition -
          renderBarGap ((computeBarPositions vw W G bars).2.2) G / 2) := by
    intro i ht hmin
    have hfind := findSepX_first
      (renderBarGap ((computeBarPositions vw W G bars).2.2) G)
      ((computeBarPositions vw W G bars).1) i ht hmin
    rw [separatorInstr, hfind, if_pos (hpos i ht)]
  refine ⟨⟨?_, ?_⟩, hsecond⟩
  · intro hex
    have hmin : ∀ j : Nat, j < Nat.find hex →
        ¬transAt ((computeBarPositions vw W G bars).1) j :=
      fun j hj => Nat.find_min hex hj
    rw [hsecond (Nat.find hex) (Nat.find_spec hex) hmin]
    rfl
  · intro hs
    by_contra hno
    push_neg at hno
    rw [separatorInstr,
      findSepX_of_no_trans (renderBarGap ((computeBarPositions vw W G bars).2.2) G)
        ((computeBarPositions vw W G bars).1) hno] at hs
    rw [if_neg (by norm_num)] at hs
    exact Bool.noConfusion hs

/-- Two bars with a transition at index 1 for the C9 witness. -/
def sepBars : List BarData := [mkBar .step 0 100, mkBar .bar 1 30]

/-- Witness for the amended C9 on a 500-wide viewport. -/
theorem separator_iff_first_transition_witness :
    (70 : ℚ) ≤ 500 ∧ (0 : ℚ) < 40 ∧ (0 : ℚ) < 10 ∧ (10 : ℚ) < 100 ∧
      transAt ((computeBarPositions 500 40 10 sepBars).1) 1 ∧
      separatorInstr (renderBarGap ((computeBarPositions 500 40 10 sepBars).2.2) 10)
          ((computeBarPositions 500 40 10 sepBars).1) =
        some (((computeBarPositions 500 40 10 sepBars).1.getD 1 noBar).xPosition -
          renderBarGap ((computeBarPositions 500 40 10 sepBars).2.2) 10 / 2) :=
  ⟨by decide, by decide, by decide, by decide, by decide,
    (separator_iff_first_transition 500 40 10 sepBars (by decide) (by decide)
        (by decide) (by decide)).2 1 (by decide)
      (fun j hj => by
        have hj0 : j = 0 := Nat.lt_one_iff.mp hj
        subst hj0
        exact transAt_zero _)⟩

end HybridWaterfall

